import Mathlib

/-!
Verification of the card-rendering core of `bili-dynamic-spider`
(`src/painter.rs`, `src/main.rs`) via a shallow embedding.

Modelling conventions:
* `image::RgbaImage` buffers become `Image`: width, height and a total pixel
  map; the in-place mutation of the Rust code becomes explicit state passing.
* Rust `u32`/`usize` arithmetic is modelled on `Nat`; where a subtraction or an
  `i32` square could overflow in the source, the theorems carry range
  hypotheses under which the `Nat`/`Int` model agrees with the machine
  arithmetic.
* `f32`/`f64` arithmetic is modelled exactly: the normalized-alpha blend of
  `paste_image_with_alpha` is rewritten over the alpha bytes with
  denominators cleared (see `blend_color`), and the `f64` scale rounding of
  the photo tiler becomes `round_div`.  Every theorem about blending
  confines itself to inputs (each alpha byte 0 or 255) where the `f32`
  computation of the source is exact, so the exact model coincides with it
  there.  The unguarded `0.0/0.0` (NaN) is covered because Rust casts NaN
  to `0 : u8` and `Nat` division by zero also yields `0`; a nonzero
  numerator over a zero `out_alpha` cannot arise since `out_alpha = 0`
  forces both alphas to `0`.
* Library calls from the `image`/`imageproc`/`ab_glyph` crates that the
  painter merely invokes (Lanczos3 `resize`, `draw_text_mut`, font glyph
  lookup, PNG decoding) are injected as parameters (`Libs`, `Resource`);
  theorems assume only their documented dimension behaviour.  The crop
  clamping of `imageops::crop_imm` is modelled from the crate's
  `crop_dimms`.
-/

set_option maxRecDepth 100000

namespace BiliSpider

/-- One RGBA pixel: four 8-bit channels, modelled as naturals. -/
structure Rgba where
  r : Nat
  g : Nat
  b : Nat
  a : Nat
deriving DecidableEq

/-- The fully transparent pixel `Rgba([0, 0, 0, 0])`. -/
def transparent : Rgba := ⟨0, 0, 0, 0⟩

/-- An `image::RgbaImage`: a width×height buffer.  The pixel map is total;
only coordinates below the bounds are meaningful. -/
structure Image where
  width : Nat
  height : Nat
  pixel : Nat → Nat → Rgba

/-- `RgbaImage::new(w, h)` (and `from_pixel` with the transparent pixel):
an all-transparent buffer. -/
def Image.new (w h : Nat) : Image := ⟨w, h, fun _ _ => transparent⟩

/-- `put_pixel`: point update of the buffer. -/
def Image.put_pixel (img : Image) (x y : Nat) (p : Rgba) : Image :=
  ⟨img.width, img.height, fun i j => if i = x ∧ j = y then p else img.pixel i j⟩

/-- The coordinates visited by `enumerate_pixels` on a w×h buffer. -/
def coords (w h : Nat) : List (Nat × Nat) :=
  (List.range h).flatMap fun y => (List.range w).map fun x => (x, y)

/-- The `blend_color` closure of `paste_image_with_alpha`
(`painter.rs:415-419`), with denominators cleared.  The source computes, in
`f32` with `src_a = A/255` and `dst_a = B/255` for the alpha bytes `A`, `B`:
`(o*src_a + b*dst_a*(1 - src_a)) / (src_a + dst_a*(1 - src_a))`, then casts
with `as u8`.  Multiplying numerator and denominator by `255²` gives the
exact value `(o*A*255 + b*B*(255-A)) / (A*255 + B*(255-A))`, and the
truncating-saturating cast of a nonnegative value is `min 255` of the `Nat`
floor division.  `Nat`'s `x/0 = 0` matches Rust's `NaN as u8 = 0` for the
unguarded `0.0/0.0` (a zero denominator forces `A = B = 0` and so a zero
numerator).  This is exact wherever the source's `f32` arithmetic is exact
— in particular whenever each alpha byte is `0` or `255`, the only cases
the theorems below evaluate; at intermediate alphas the `f32` rounding of
the source can differ from the exact value by one unit, and no theorem
below asserts anything there. -/
def blend_color (A B o b : Nat) : Nat :=
  min 255 ((o * A * 255 + b * B * (255 - A)) / (A * 255 + B * (255 - A)))

/-- The output alpha `(out_alpha * 255.0) as u8` of `paste_image_with_alpha`
(`painter.rs:412,425`): `out_alpha = A/255 + (B/255)*(1 - A/255)`, so
`out_alpha*255 = (A*255 + B*(255-A))/255` exactly. -/
def blend_alpha (A B : Nat) : Nat :=
  min 255 ((A * 255 + B * (255 - A)) / 255)

/-- The per-pixel body of `paste_image_with_alpha` (`painter.rs:405-426`). -/
def blend_pixel (overlay_pixel base_pixel : Rgba) : Rgba :=
  ⟨blend_color overlay_pixel.a base_pixel.a overlay_pixel.r base_pixel.r,
   blend_color overlay_pixel.a base_pixel.a overlay_pixel.g base_pixel.g,
   blend_color overlay_pixel.a base_pixel.a overlay_pixel.b base_pixel.b,
   blend_alpha overlay_pixel.a base_pixel.a⟩

/-- The loop body of `paste_image_with_alpha` (`painter.rs:399-430`): one
overlay pixel blended into the buffer `acc`.  The bounds checks read
`base_image.width()`/`height()`, which never change during the loop, so they
are the `bw`/`bh` captured at the call. -/
def paste_body (bw bh : Nat) (overlay_image : Image) (x y : Nat)
    (acc : Image) (oc : Nat × Nat) : Image :=
  let base_x := x + oc.1
  let base_y := y + oc.2
  if base_x < bw ∧ base_y < bh then
    acc.put_pixel base_x base_y
      (blend_pixel (overlay_image.pixel oc.1 oc.2) (acc.pixel base_x base_y))
  else acc

/-- `paste_image_with_alpha` (`painter.rs:398-431`). -/
def paste_image_with_alpha (base_image overlay_image : Image) (x y : Nat) : Image :=
  (coords overlay_image.width overlay_image.height).foldl
    (paste_body base_image.width base_image.height overlay_image x y) base_image

/-- `is_point_in_circle` (`painter.rs:434-440`), with the `i32` arithmetic
modelled exactly on `Int` (faithful while the squares fit in an `i32`). -/
def is_point_in_circle (x y : Nat) (center : Nat × Nat) (radius : Nat) : Bool :=
  let dx : Int := (x : Int) - (center.1 : Int)
  let dy : Int := (y : Int) - (center.2 : Int)
  decide (dx * dx + dy * dy ≤ ((radius * radius : Nat) : Int))

/-- `create_circular_image` (`painter.rs:196-239`).  The Lanczos3 resize of
the input (a library call whose requested dimensions come from `f32` scale
factors) is injected as `resized_image`; the centering offsets and the
circular masking below are the source's. -/
def create_circular_image (resized_image : Image) (diameter : Nat) : Image :=
  let x_offset := (diameter - resized_image.width) / 2
  let y_offset := (diameter - resized_image.height) / 2
  let center := (diameter / 2, diameter / 2)
  let radius := diameter / 2
  (coords resized_image.width resized_image.height).foldl
    (fun acc oc =>
      let circle_x := oc.1 + x_offset
      let circle_y := oc.2 + y_offset
      if is_point_in_circle circle_x circle_y center radius then
        acc.put_pixel circle_x circle_y (resized_image.pixel oc.1 oc.2)
      else acc)
    (Image.new diameter diameter)

/-- Rust `char`s are modelled by their Unicode scalar value (`c as u32`). -/
abbrev CharCode := Nat

/-- `clean_special_chars` (`painter.rs:442-450`): removes every occurrence of
U+200B (8203, zero width space) and U+FE0F (65039, variation selector 16). -/
def clean_special_chars (s : List CharCode) : List CharCode :=
  s.filter fun c => !(c == 8203 || c == 65039)

/-- `is_emoji` (`painter.rs:459-471`): the fixed Unicode block ranges. -/
def is_emoji (c : CharCode) : Bool :=
  decide ((0x1F600 ≤ c ∧ c ≤ 0x1F64F) ∨ (0x1F300 ≤ c ∧ c ≤ 0x1F5FF) ∨
    (0x1F680 ≤ c ∧ c ≤ 0x1F6FF) ∨ (0x2600 ≤ c ∧ c ≤ 0x26FF) ∨
    (0x2700 ≤ c ∧ c ≤ 0x27BF) ∨ (0xFE00 ≤ c ∧ c ≤ 0xFE0F) ∨
    (0x1F900 ≤ c ∧ c ≤ 0x1F9FF) ∨ (0x1F1E6 ≤ c ∧ c ≤ 0x1F1FF))

/-- What the layout observes of an `ab_glyph::v2::GlyphImage`: whether its
format is PNG and, when it is, the result of decoding its data (a library
call; a decode failure is `none`). -/
structure GlyphImage where
  format_is_png : Bool
  decoded : Option Image

/-- `glyph_to_rgba` (`painter.rs:364-378`): errs (`none` here, `Err` in the
source) on a non-PNG glyph format or on a decode failure. -/
def glyph_to_rgba (g : GlyphImage) : Option Image :=
  if g.format_is_png then g.decoded else none

/-- The parts of `Resource` that `draw_content_image` reads.  The font queries
are the behaviour of the loaded font files: `emoji_glyph c` stands for
`emoji_font.glyph_raster_image2(emoji_font.glyph_id(c), u16::MAX)`, and
`text_char_width c` for the width component of
`imageproc::drawing::text_size(text_scale, text_normal_font, s)` on the
one-character string of `c` (the text scale is baked into the function). -/
structure Resource where
  emoji_glyph : CharCode → Option GlyphImage
  text_char_width : CharCode → Nat
  web_image : Image
  bv_image : Image
  lottery_image : Image
  vote_image : Image
  goods_image : Image

/-- Library primitives the painter invokes: `imageops::resize` (Lanczos3 — a
pure function of the input image and the requested dimensions) and
`imageproc::drawing::draw_text_mut` drawing one character in black onto a
buffer at a position (the text scale and font are baked in).  Theorems
assume only their documented dimension behaviour. -/
structure Libs where
  resize : Image → Nat → Nat → Image
  draw_text_char : Image → Nat → Nat → CharCode → Image

/-- `RichTextNode` (`main.rs:56-71`); text is the list of scalar values. -/
inductive RichTextNode where
  | Text (text : List CharCode)
  | Emoji (img : Image)
  | Web
  | Bv
  | Lottery
  | Vote
  | Goods

/-- The loop state of `draw_content_image`: finished lines, the current line
buffer, and the cursor. -/
structure LayoutState where
  images : List Image
  current_image : Image
  x : Nat
  y : Nat

/-- `images.push(mem::replace(&mut current_image, RgbaImage::new(w, 40)));
x = 0; y = 0;` — finishing the current line (`painter.rs:259-264`,
`302-307`, `348-353`). -/
def push_line (line_max_width : Nat) (s : LayoutState) : LayoutState :=
  ⟨s.images ++ [s.current_image], Image.new line_max_width 40, 0, 0⟩

/-- The per-character body of the text-node loop of `draw_content_image`
(`painter.rs:257-324`).  `em_x`, `em_y` are `emoji_scale.x as u32` and
`emoji_scale.y as u32`. -/
def char_step (libs : Libs) (res : Resource) (line_max_width em_x em_y : Nat)
    (s : LayoutState) (c : CharCode) : LayoutState :=
  if c = 10 then
    push_line line_max_width s
  else if is_emoji c then
    match res.emoji_glyph c with
    | none => s
    | some glyph_image =>
      match glyph_to_rgba glyph_image with
      | none => s
      | some image =>
        let resized_image := libs.resize image em_x em_y
        { s with
          current_image := paste_image_with_alpha s.current_image resized_image s.x s.y,
          x := s.x + em_x }
  else
    let cwidth := res.text_char_width c
    let s' := if s.x + cwidth > line_max_width then push_line line_max_width s else s
    { s' with
      current_image := libs.draw_text_char s'.current_image s'.x s'.y c,
      x := s'.x + cwidth }

/-- The `image_to_draw` selection and resize for non-text nodes
(`painter.rs:329-343`): emoji nodes to 30×30, icon nodes to 40×40. -/
def node_resized (libs : Libs) (res : Resource) (node : RichTextNode) : Image :=
  let image_to_draw := match node with
    | .Emoji img => img
    | .Web => res.web_image
    | .Bv => res.bv_image
    | .Lottery => res.lottery_image
    | .Vote => res.vote_image
    | .Goods => res.goods_image
    | .Text _ => Image.new 0 0   -- `unreachable!()` in the source
  match node with
  | .Emoji _ => libs.resize image_to_draw 30 30
  | _ => libs.resize image_to_draw 40 40

/-- The per-node body of `draw_content_image`'s loop (`painter.rs:255-357`).
After pasting an icon/emoji node the source does not advance `x`. -/
def node_step (libs : Libs) (res : Resource) (line_max_width em_x em_y : Nat)
    (s : LayoutState) (node : RichTextNode) : LayoutState :=
  match node with
  | .Text text =>
    (clean_special_chars text).foldl (char_step libs res line_max_width em_x em_y) s
  | _ =>
    let resized_image := node_resized libs res node
    let image_width := resized_image.width
    let s' := if s.x + image_width > line_max_width then push_line line_max_width s else s
    { s' with
      current_image := paste_image_with_alpha s'.current_image resized_image s'.x s'.y }

/-- `draw_content_image` (`painter.rs:242-362`). -/
def draw_content_image (libs : Libs) (nodes : List RichTextNode)
    (line_max_width em_x em_y : Nat) (res : Resource) : List Image :=
  let s := nodes.foldl (node_step libs res line_max_width em_x em_y)
    ⟨[], Image.new line_max_width 40, 0, 0⟩
  s.images ++ [s.current_image]

/-- The photos-per-row count and the square edge size of
`download_dynamic_images` (`main.rs:937-941`).  `u32` subtraction and
division become `Nat` operations; theorems carry `margin*4 ≤ area_width`
under which they agree with the machine arithmetic. -/
def pictures_layout (num_pictures image_area_width image_margin : Nat) : Nat × Nat :=
  match num_pictures with
  | 1 => (1, image_area_width - image_margin * 2)
  | 2 | 4 => (2, (image_area_width - image_margin * 3) / 2)
  | _ => (3, (image_area_width - image_margin * 4) / 3)

/-- The photos-per-row count recomputed by `draw_content` (`main.rs:634-638`). -/
def num_pics_per_line (n : Nat) : Nat :=
  match n with
  | 1 => 1
  | 2 | 4 => 2
  | _ => 3

/-- `((p as f64) / (q as f64)).round() as u32` for naturals `p`, `q`:
round-half-away-from-zero of the nonnegative exact quotient `p/q`, i.e.
`⌊p/q + 1/2⌋ = (2p + q) / (2q)` in `Nat` floor division.  Exact for every
quotient the `f64` arithmetic of the source represents exactly enough,
i.e. all realistic picture dimensions. -/
def round_div (p q : Nat) : Nat := (2 * p + q) / (2 * q)

/-- `imageops::crop_imm(img, x, y, w, h).to_image()`: the rectangle is
clamped to the image bounds as in the crate's `crop_dimms`. -/
def crop_imm (img : Image) (x y w h : Nat) : Image :=
  let cx := min x img.width
  let cy := min y img.height
  let cw := min w (img.width - cx)
  let ch := min h (img.height - cy)
  ⟨cw, ch, fun i j => img.pixel (cx + i) (cy + j)⟩

/-- The per-photo resize/center-crop of `download_dynamic_images`
(`main.rs:977-1023`): `img` is the decoded photo, `picture_square_size` the
edge from `pictures_layout`.  The `f64` scale arithmetic is modelled on
exact rationals (exact for all realistic dimensions). -/
def resize_to_square (libs : Libs) (picture_square_size : Nat) (img : Image) : Image :=
  if img.height = img.width then
    libs.resize img picture_square_size picture_square_size
  else if img.height < img.width then
    let nheight := picture_square_size
    let nwidth := round_div (picture_square_size * img.width) img.height
    let resized := libs.resize img nwidth nheight
    crop_imm resized ((nwidth - picture_square_size) / 2) 0
      picture_square_size picture_square_size
  else
    let nwidth := picture_square_size
    let nheight := round_div (picture_square_size * img.height) img.width
    let resized := libs.resize img nwidth nheight
    crop_imm resized 0 ((nheight - picture_square_size) / 2)
      picture_square_size picture_square_size

/-! Concrete instantiations of the injected library primitives and resources,
used by counterexamples and witnesses. -/

/-- A concrete stand-in for the injected library primitives: a nearest-pixel
resize (its output has exactly the requested dimensions, the only property
theorems assume of `imageops::resize`) and a one-pixel text draw that stays
inside the buffer (as `draw_text_mut` does). -/
def simple_libs : Libs where
  resize := fun img w h => ⟨w, h, fun x y => img.pixel (x * img.width / w) (y * img.height / h)⟩
  draw_text_char := fun img x y _ =>
    if x < img.width ∧ y < img.height then img.put_pixel x y ⟨0, 0, 0, 255⟩ else img

/-- A 40×40 solid red opaque image (a stand-in icon). -/
def red_icon : Image := ⟨40, 40, fun _ _ => ⟨255, 0, 0, 255⟩⟩

/-- A resource whose emoji font has a 1×1 PNG raster glyph for U+1F600 and
for U+FE00 (variation selector 1) and none for any other character, and
whose text font measures every character 3 pixels wide. -/
def test_res : Resource where
  emoji_glyph := fun c =>
    if c = 0x1F600 then some ⟨true, some ⟨1, 1, fun _ _ => ⟨9, 9, 9, 255⟩⟩⟩
    else if c = 0xFE00 then some ⟨true, some ⟨1, 1, fun _ _ => ⟨255, 0, 0, 255⟩⟩⟩
    else none
  text_char_width := fun _ => 3
  web_image := red_icon
  bv_image := red_icon
  lottery_image := red_icon
  vote_image := red_icon
  goods_image := red_icon

/-- Pixels of a base image are well formed: all four channels are bytes. -/
def Rgba.wf (p : Rgba) : Prop := p.r ≤ 255 ∧ p.g ≤ 255 ∧ p.b ≤ 255 ∧ p.a ≤ 255

/-- One line buffer has the fixed dimensions `line_max_width × 40`. -/
def line_ok (w : Nat) (img : Image) : Prop := img.width = w ∧ img.height = 40

/-- Every buffer the layout state holds is a `w × 40` line. -/
def layout_ok (w : Nat) (s : LayoutState) : Prop :=
  line_ok w s.current_image ∧ ∀ img ∈ s.images, line_ok w img

/-- A 1×1 base image whose pixel has nonzero color channels and alpha 0. -/
def c2_cex_base : Image := ⟨1, 1, fun _ _ => ⟨100, 50, 20, 0⟩⟩

/-- A 1×1 fully transparent overlay. -/
def c2_cex_overlay : Image := ⟨1, 1, fun _ _ => ⟨0, 0, 0, 0⟩⟩

/-- A 2×1 base: an opaque pixel at (0,0), an alpha-0 pixel at (1,0). -/
def c2_wit_base : Image :=
  ⟨2, 1, fun i _ => if i = 0 then ⟨10, 20, 30, 255⟩ else ⟨7, 8, 9, 0⟩⟩

/-- A 2×1 transparent overlay with nonzero color channels. -/
def c2_wit_overlay : Image := ⟨2, 1, fun _ _ => ⟨1, 2, 3, 0⟩⟩

/-- A 4×4 fully opaque stand-in for the resized avatar. -/
def c4_resized : Image := ⟨4, 4, fun _ _ => ⟨1, 2, 3, 255⟩⟩

/-- The glyph the test resource exposes for U+1F600. -/
def wit_glyph : GlyphImage := ⟨true, some ⟨1, 1, fun _ _ => ⟨9, 9, 9, 255⟩⟩⟩

/-- A 4-wide, 2-tall photo (wider than tall). -/
def c7_photo : Image := ⟨4, 2, fun _ _ => ⟨5, 6, 7, 255⟩⟩

/-! Helper lemmas. -/

theorem foldl_preserve {α β : Type} {P : α → Prop} {f : α → β → α}
    (h : ∀ s b, P s → P (f s b)) :
    ∀ (l : List β) (s : α), P s → P (l.foldl f s)
  | [], _, hs => hs
  | b :: l, s, hs => foldl_preserve h l (f s b) (h s b hs)

theorem mem_coords {w h a b : Nat} : (a, b) ∈ coords w h ↔ a < w ∧ b < h := by
  simp only [coords, List.mem_flatMap, List.mem_map, List.mem_range]
  constructor
  · rintro ⟨y, hy, x, hx, hxy⟩
    obtain ⟨rfl, rfl⟩ := Prod.mk.injEq .. ▸ hxy
    exact ⟨hx, hy⟩
  · rintro ⟨ha, hb⟩
    exact ⟨b, hb, a, ha, rfl⟩

theorem paste_dims (base overlay : Image) (x y : Nat) :
    (paste_image_with_alpha base overlay x y).width = base.width ∧
    (paste_image_with_alpha base overlay x y).height = base.height := by
  unfold paste_image_with_alpha
  refine foldl_preserve (P := fun img : Image =>
    img.width = base.width ∧ img.height = base.height) ?_ _ base ⟨rfl, rfl⟩
  intro s oc hs
  dsimp only [paste_body]
  split
  · exact ⟨hs.1, hs.2⟩
  · exact hs

theorem transparent_wf : transparent.wf := by
  refine ⟨?_, ?_, ?_, ?_⟩ <;> simp [transparent]

theorem blend_pixel_wf (t p : Rgba) : (blend_pixel t p).wf := by
  refine ⟨?_, ?_, ?_, ?_⟩ <;>
    simp [blend_pixel, blend_color, blend_alpha]

theorem blend_alpha_transparent (B : Nat) (hB : B ≤ 255) : blend_alpha 0 B = B := by
  unfold blend_alpha
  rw [show 0 * 255 + B * (255 - 0) = B * 255 by ring, Nat.mul_div_cancel B (by norm_num),
    min_eq_right hB]

theorem blend_color_opaque_base (o b : Nat) (hb : b ≤ 255) : blend_color 0 255 o b = b := by
  unfold blend_color
  rw [show o * 0 * 255 + b * 255 * (255 - 0) = b * 65025 by ring,
    show 0 * 255 + 255 * (255 - 0) = 65025 by norm_num,
    Nat.mul_div_cancel b (by norm_num), min_eq_right hb]

theorem blend_color_both_zero (o b : Nat) : blend_color 0 0 o b = 0 := by
  simp [blend_color]

theorem blend_pixel_transparent_overlay (t p : Rgba) (ht : t.a = 0) (hwf : p.wf) :
    (blend_pixel t p).a = p.a ∧
    (p.a = 255 → blend_pixel t p = p) ∧
    (p.a = 0 → blend_pixel t p = transparent) := by
  obtain ⟨hr, hg, hb, ha⟩ := hwf
  refine ⟨?_, ?_, ?_⟩
  · simp [blend_pixel, ht, blend_alpha_transparent p.a ha]
  · intro h255
    rcases p with ⟨pr, pg, pb, pa⟩
    simp only at hr hg hb h255
    subst h255
    simp [blend_pixel, ht, blend_color_opaque_base _ _ hr, blend_color_opaque_base _ _ hg,
      blend_color_opaque_base _ _ hb, blend_alpha_transparent 255 (by norm_num)]
  · intro h0
    rcases p with ⟨pr, pg, pb, pa⟩
    simp only at h0
    subst h0
    simp [blend_pixel, ht, blend_color_both_zero, transparent, blend_alpha_transparent 0 (by norm_num)]

theorem paste_transparent_overlay (base overlay : Image) (x y : Nat)
    (hov : ∀ i j, (overlay.pixel i j).a = 0)
    (hwf : ∀ i j, (base.pixel i j).wf) (px py : Nat) :
    ((paste_image_with_alpha base overlay x y).pixel px py).wf ∧
    ((paste_image_with_alpha base overlay x y).pixel px py).a = (base.pixel px py).a ∧
    ((base.pixel px py).a = 255 →
      (paste_image_with_alpha base overlay x y).pixel px py = base.pixel px py) := by
  unfold paste_image_with_alpha
  refine foldl_preserve (P := fun img : Image => ∀ i j,
    (img.pixel i j).wf ∧ (img.pixel i j).a = (base.pixel i j).a ∧
    ((base.pixel i j).a = 255 → img.pixel i j = base.pixel i j)) ?_ _ base
    (fun i j => ⟨hwf i j, rfl, fun _ => rfl⟩) px py
  intro s oc hs i j
  dsimp only [paste_body]
  split
  · simp only [Image.put_pixel]
    split
    · rename_i hij
      obtain ⟨rfl, rfl⟩ := hij
      have ht : (overlay.pixel oc.1 oc.2).a = 0 := hov oc.1 oc.2
      obtain ⟨hqwf, hqa, hq255⟩ := hs (x + oc.1) (y + oc.2)
      obtain ⟨hba, hb255, _⟩ :=
        blend_pixel_transparent_overlay (overlay.pixel oc.1 oc.2)
          (s.pixel (x + oc.1) (y + oc.2)) ht hqwf
      refine ⟨blend_pixel_wf _ _, hba.trans hqa, fun h255 => ?_⟩
      rw [hq255 h255]
      obtain ⟨_, hb255', _⟩ :=
        blend_pixel_transparent_overlay (overlay.pixel oc.1 oc.2)
          (base.pixel (x + oc.1) (y + oc.2)) ht (hwf _ _)
      exact hb255' h255
    · exact hs i j
  · exact hs i j

theorem paste_transparent_overlay_zeroes (base overlay : Image) (x y ox oy : Nat)
    (hov : ∀ i j, (overlay.pixel i j).a = 0)
    (hwf : ∀ i j, (base.pixel i j).wf)
    (hox : ox < overlay.width) (hoy : oy < overlay.height)
    (hbx : x + ox < base.width) (hby : y + oy < base.height)
    (ha : (base.pixel (x + ox) (y + oy)).a = 0) :
    (paste_image_with_alpha base overlay x y).pixel (x + ox) (y + oy) = transparent := by
  obtain ⟨l1, l2, hl⟩ := List.append_of_mem (mem_coords.mpr ⟨hox, hoy⟩)
  unfold paste_image_with_alpha
  rw [hl, List.foldl_append, List.foldl_cons]
  -- After the fold over `l1`, the target pixel still has alpha 0 and is well formed.
  have hmid := foldl_preserve (P := fun img : Image => ∀ i j,
      (img.pixel i j).wf ∧ (img.pixel i j).a = (base.pixel i j).a)
    (f := paste_body base.width base.height overlay x y)
    (fun s oc hs => by
      intro i j
      dsimp only [paste_body]
      split
      · simp only [Image.put_pixel]
        split
        · rename_i hij
          obtain ⟨rfl, rfl⟩ := hij
          obtain ⟨hqwf, hqa⟩ := hs (x + oc.1) (y + oc.2)
          obtain ⟨hba, _, _⟩ :=
            blend_pixel_transparent_overlay (overlay.pixel oc.1 oc.2)
              (s.pixel (x + oc.1) (y + oc.2)) (hov oc.1 oc.2) hqwf
          exact ⟨blend_pixel_wf _ _, hba.trans hqa⟩
        · exact hs i j
      · exact hs i j)
    l1 base (fun i j => ⟨hwf i j, rfl⟩)
  generalize hgen : List.foldl (paste_body base.width base.height overlay x y) base l1 = mid
    at hmid ⊢
  -- The step at `(ox, oy)` writes the fully transparent pixel at the target.
  have hwrite :
      (paste_body base.width base.height overlay x y mid (ox, oy)).pixel (x + ox) (y + oy) =
        transparent := by
    dsimp only [paste_body]
    rw [if_pos ⟨hbx, hby⟩]
    simp only [Image.put_pixel, and_self, if_true]
    obtain ⟨hqwf, hqa⟩ := hmid (x + ox) (y + oy)
    obtain ⟨_, _, hzero⟩ :=
      blend_pixel_transparent_overlay (overlay.pixel ox oy)
        (mid.pixel (x + ox) (y + oy)) (hov ox oy) hqwf
    exact hzero (hqa.trans ha)
  -- The fold over `l2` keeps the target pixel fully transparent.
  refine foldl_preserve
    (P := fun img : Image => img.pixel (x + ox) (y + oy) = transparent) ?_ l2 _ hwrite
  intro s oc hs
  dsimp only [paste_body]
  split
  · simp only [Image.put_pixel]
    split
    · rename_i hij
      obtain ⟨h1, h2⟩ := hij
      rw [h1, h2] at hs
      obtain ⟨_, _, hzero⟩ :=
        blend_pixel_transparent_overlay (overlay.pixel oc.1 oc.2)
          (s.pixel (x + oc.1) (y + oc.2)) (hov oc.1 oc.2)
          (by rw [hs]; exact transparent_wf)
      exact hzero (by rw [hs]; rfl)
    · exact hs
  · exact hs

/-! Claim C2. -/

/-- C2, counterexample: pasting a fully transparent overlay does NOT leave
every base pixel untouched.  At a base pixel with alpha 0 the combined
`out_alpha` is 0 and the source has no divide-by-zero guard: the `0.0/0.0`
NaN is cast to `0`, so the pixel's color channels are zeroed
(100, 50, 20, 0) → (0, 0, 0, 0). -/
theorem C2_counterexample :
    (paste_image_with_alpha c2_cex_base c2_cex_overlay 0 0).pixel 0 0 ≠ c2_cex_base.pixel 0 0 ∧
    (paste_image_with_alpha c2_cex_base c2_cex_overlay 0 0).pixel 0 0 = ⟨0, 0, 0, 0⟩ := by
  constructor <;> decide

/-- C2 (amended): for a fully transparent overlay over a base image with
well-formed (byte-ranged) pixels, `paste_image_with_alpha` preserves every
pixel's alpha channel, and leaves every fully opaque (alpha 255) base pixel
entirely unchanged; but there is no divide-by-zero guard: a base pixel with
alpha 0 covered in-bounds by the overlay has its color channels zeroed (the
unguarded `0.0/0.0` NaN is cast to `0 : u8`), rather than being left
untouched. -/
theorem C2_alpha_blend_guard (base overlay : Image) (x y : Nat)
    (hov : ∀ i j, (overlay.pixel i j).a = 0)
    (hwf : ∀ i j, (base.pixel i j).wf) :
    (∀ px py,
      ((paste_image_with_alpha base overlay x y).pixel px py).a = (base.pixel px py).a) ∧
    (∀ px py, (base.pixel px py).a = 255 →
      (paste_image_with_alpha base overlay x y).pixel px py = base.pixel px py) ∧
    (∀ ox oy, ox < overlay.width → oy < overlay.height →
      x + ox < base.width → y + oy < base.height →
      (base.pixel (x + ox) (y + oy)).a = 0 →
      (paste_image_with_alpha base overlay x y).pixel (x + ox) (y + oy) = transparent) :=
  ⟨fun px py => (paste_transparent_overlay base overlay x y hov hwf px py).2.1,
   fun px py h => (paste_transparent_overlay base overlay x y hov hwf px py).2.2 h,
   fun ox oy h1 h2 h3 h4 h5 =>
     paste_transparent_overlay_zeroes base overlay x y ox oy hov hwf h1 h2 h3 h4 h5⟩

theorem C2_alpha_blend_guard_witness :
    (paste_image_with_alpha c2_wit_base c2_wit_overlay 0 0).pixel 0 0 = ⟨10, 20, 30, 255⟩ ∧
    (paste_image_with_alpha c2_wit_base c2_wit_overlay 0 0).pixel (0 + 1) (0 + 0) =
      transparent := by
  have h := C2_alpha_blend_guard c2_wit_base c2_wit_overlay 0 0
    (fun i j => rfl)
    (fun i j => by
      dsimp only [c2_wit_base]
      split <;> exact ⟨by decide, by decide, by decide, by decide⟩)
  exact ⟨h.2.1 0 0 rfl, h.2.2 1 0 (by decide) (by decide) (by decide) (by decide) rfl⟩

/-! Claim C4. -/

/-- C4: `create_circular_image` yields a `diameter × diameter` image, and
every pixel whose offset-from-center squares exceed `(d/2)²` keeps alpha 0.
The range hypotheses delimit the regime where the source's `u32`
subtraction and `i32` squares cannot overflow, so the exact `Nat`/`Int`
model is faithful there; they are not otherwise used. -/
theorem C4_circular_mask (resized_image : Image) (diameter : Nat)
    (hw : resized_image.width ≤ diameter) (hh : resized_image.height ≤ diameter)
    (hd : diameter ≤ 16384) (px py : Nat)
    (hout : ((diameter / 2 * (diameter / 2) : Nat) : Int) <
      ((px : Int) - ((diameter / 2 : Nat) : Int)) * ((px : Int) - ((diameter / 2 : Nat) : Int)) +
      ((py : Int) - ((diameter / 2 : Nat) : Int)) * ((py : Int) - ((diameter / 2 : Nat) : Int))) :
    (create_circular_image resized_image diameter).width = diameter ∧
    (create_circular_image resized_image diameter).height = diameter ∧
    ((create_circular_image resized_image diameter).pixel px py).a = 0 := by
  unfold create_circular_image
  refine ⟨?_, ?_, ?_⟩
  · refine foldl_preserve (P := fun img : Image => img.width = diameter) ?_ _ _ rfl
    intro s oc hs
    dsimp only
    split
    · exact hs
    · exact hs
  · refine foldl_preserve (P := fun img : Image => img.height = diameter) ?_ _ _ rfl
    intro s oc hs
    dsimp only
    split
    · exact hs
    · exact hs
  · refine foldl_preserve (P := fun img : Image => (img.pixel px py).a = 0) ?_ _ _ rfl
    intro s oc hs
    dsimp only
    split
    · rename_i htest
      simp only [Image.put_pixel]
      split
      · rename_i hij
        exfalso
        simp only [is_point_in_circle, decide_eq_true_eq] at htest
        rw [hij.1, hij.2] at hout
        exact absurd htest (not_le.mpr hout)
      · exact hs
    · exact hs

theorem C4_circular_mask_witness :
    (create_circular_image c4_resized 4).width = 4 ∧
    (create_circular_image c4_resized 4).height = 4 ∧
    ((create_circular_image c4_resized 4).pixel 0 0).a = 0 :=
  C4_circular_mask c4_resized 4 (by decide) (by decide) (by decide) 0 0 (by decide)

/-! Claim C5. -/

/-- C5: `draw_content_image` always returns at least one line image (the
final partially filled line buffer is always appended), and the empty node
sequence yields exactly one line image, all of whose pixels are fully
transparent. -/
theorem C5_nonempty_output :
    (∀ (libs : Libs) (nodes : List RichTextNode) (w ex ey : Nat) (res : Resource),
      1 ≤ (draw_content_image libs nodes w ex ey res).length) ∧
    (∀ (libs : Libs) (w ex ey : Nat) (res : Resource),
      draw_content_image libs [] w ex ey res = [Image.new w 40] ∧
      ∀ px py, (Image.new w 40).pixel px py = transparent) := by
  constructor
  · intro libs nodes w ex ey res
    unfold draw_content_image
    simp
  · intro libs w ex ey res
    exact ⟨rfl, fun px py => rfl⟩

/-! Claim C6. -/

/-- C6: the photos-per-row count is 1 for one photo, 2 for two or four, and
3 otherwise (both in the downloader and in `draw_content`), and the square
edge is `area_width - 2*margin`, `(area_width - 3*margin)/2`, and
`(area_width - 4*margin)/3` respectively.  The hypothesis merely keeps the
`Nat` subtractions in the regime where the source's `u32` subtraction
cannot underflow. -/
theorem C6_photo_grid_layout (n w m : Nat) (hm : m * 4 ≤ w) :
    (pictures_layout n w m).1 = (if n = 1 then 1 else if n = 2 ∨ n = 4 then 2 else 3) ∧
    (pictures_layout n w m).2 =
      (if n = 1 then w - 2 * m else if n = 2 ∨ n = 4 then (w - 3 * m) / 2
        else (w - 4 * m) / 3) ∧
    num_pics_per_line n = (pictures_layout n w m).1 := by
  rcases n with _ | _ | _ | _ | _ | k <;>
    refine ⟨?_, ?_, ?_⟩ <;>
      simp [pictures_layout, num_pics_per_line] <;>
        omega

theorem C6_photo_grid_layout_witness :
    (pictures_layout 3 100 10).1 = 3 ∧ (pictures_layout 3 100 10).2 = 20 ∧
    num_pics_per_line 3 = 3 := by
  obtain ⟨h1, h2, h3⟩ := C6_photo_grid_layout 3 100 10 (by decide)
  refine ⟨?_, ?_, ?_⟩
  · rw [h1]; decide
  · rw [h2]; decide
  · rw [h3, h1]; decide

/-! Claim C1. -/

/-- C1 (amended): a fresh line starts exactly at (a) a newline character,
(b) a plain (non-emoji) character whose measured width would exceed the
remaining width (`x + cwidth > line_max_width`, checked before drawing),
and (c) a non-text node whose resized image would exceed the remaining
width; but an emoji character inside a text node is exempt from the width
check — when its glyph rasterizes it is pasted at the current cursor
(clipped at the line's right edge) and never finishes a line — and a
pasted node-level image leaves the cursor where it was. -/
theorem C1_line_break_rules (libs : Libs) (res : Resource) (w ex ey : Nat) (s : LayoutState) :
    (char_step libs res w ex ey s 10 = push_line w s) ∧
    (∀ c g img, is_emoji c = true → res.emoji_glyph c = some g →
      glyph_to_rgba g = some img →
      (char_step libs res w ex ey s c).images = s.images ∧
      (char_step libs res w ex ey s c).x = s.x + ex) ∧
    (∀ c, c ≠ 10 → is_emoji c = false →
      (char_step libs res w ex ey s c).images =
        (if s.x + res.text_char_width c > w then s.images ++ [s.current_image]
          else s.images)) ∧
    (∀ node, (∀ t, node ≠ RichTextNode.Text t) →
      (node_step libs res w ex ey s node).images =
        (if s.x + (node_resized libs res node).width > w
          then s.images ++ [s.current_image] else s.images) ∧
      (node_step libs res w ex ey s node).x =
        (if s.x + (node_resized libs res node).width > w then 0 else s.x)) := by
  refine ⟨?_, ?_, ?_, ?_⟩
  · simp [char_step]
  · intro c g img hEm hg hdec
    have hc10 : ¬(c = 10) := fun h => by subst h; exact absurd hEm (by decide)
    unfold char_step
    rw [if_neg hc10, if_pos hEm]
    simp [hg, hdec]
  · intro c hc10 hEm
    by_cases hwrap : s.x + res.text_char_width c > w <;>
      simp [char_step, hc10, hEm, hwrap, push_line]
  · intro node hnode
    cases node with
    | Text t => exact absurd rfl (hnode t)
    | Emoji img =>
      by_cases hwrap : s.x + (node_resized libs res (RichTextNode.Emoji img)).width > w <;>
        simp [node_step, hwrap, push_line]
    | Web =>
      by_cases hwrap : s.x + (node_resized libs res RichTextNode.Web).width > w <;>
        simp [node_step, hwrap, push_line]
    | Bv =>
      by_cases hwrap : s.x + (node_resized libs res RichTextNode.Bv).width > w <;>
        simp [node_step, hwrap, push_line]
    | Lottery =>
      by_cases hwrap : s.x + (node_resized libs res RichTextNode.Lottery).width > w <;>
        simp [node_step, hwrap, push_line]
    | Vote =>
      by_cases hwrap : s.x + (node_resized libs res RichTextNode.Vote).width > w <;>
        simp [node_step, hwrap, push_line]
    | Goods =>
      by_cases hwrap : s.x + (node_resized libs res RichTextNode.Goods).width > w <;>
        simp [node_step, hwrap, push_line]

theorem C1_line_break_rules_witness :
    (char_step simple_libs test_res 4 2 2 ⟨[], Image.new 4 40, 3, 0⟩ 10 =
      push_line 4 ⟨[], Image.new 4 40, 3, 0⟩) ∧
    (char_step simple_libs test_res 4 2 2 ⟨[], Image.new 4 40, 3, 0⟩ 0x1F600).images = [] ∧
    (char_step simple_libs test_res 4 2 2 ⟨[], Image.new 4 40, 3, 0⟩ 0x1F600).x = 3 + 2 ∧
    (char_step simple_libs test_res 4 2 2 ⟨[], Image.new 4 40, 3, 0⟩ 65).images =
      [Image.new 4 40] ∧
    (node_step simple_libs test_res 4 2 2 ⟨[], Image.new 4 40, 3, 0⟩ RichTextNode.Web).x
      = 0 := by
  obtain ⟨h1, h2, h3, h4⟩ :=
    C1_line_break_rules simple_libs test_res 4 2 2 ⟨[], Image.new 4 40, 3, 0⟩
  have he := h2 0x1F600 wit_glyph ⟨1, 1, fun _ _ => ⟨9, 9, 9, 255⟩⟩ (by decide) rfl rfl
  have hp := h3 65 (by decide) (by decide)
  have hn := h4 RichTextNode.Web (fun t h => RichTextNode.noConfusion h)
  refine ⟨h1, he.1, he.2, ?_, ?_⟩
  · rw [hp]
    norm_num [test_res]
  · rw [hn.2]
    norm_num [node_resized, simple_libs]

/-- C1, counterexample: on a 4-px-wide line, after a 3-px plain glyph the
cursor is at x = 3; the next in-text emoji is 2 px wide, so `3 + 2 > 4`
exceeds the remaining width, yet the engine does not start a fresh line:
the whole input yields a single line image, and the emoji's pixels sit on
that same line at x = 3 (the claim would require a second line). -/
theorem C1_counterexample :
    (draw_content_image simple_libs [RichTextNode.Text [65, 0x1F600]] 4 2 2 test_res).length
      = 1 ∧
    ((draw_content_image simple_libs [RichTextNode.Text [65, 0x1F600]] 4 2 2 test_res).map
      fun im => im.pixel 3 0) = [⟨9, 9, 9, 255⟩] := by
  constructor <;> decide

/-! Claim C3. -/

/-- C3 (code bug): after alpha-compositing a node-level icon, the source
never advances `x` (`painter.rs:356`; compare the `x += cwidth` of the text
path).  Two consecutive Web icon nodes on a 100-px line are both pasted at
x = 0: the cursor stays at 0, the pixel at (0, 0) carries the red icon, and
the range [40, 80) that the second icon would occupy under the claim stays
fully transparent — the two icons overlap instead of occupying disjoint
ranges. -/
theorem C3_icon_no_advance :
    (List.foldl (node_step simple_libs test_res 100 30 30)
      ⟨[], Image.new 100 40, 0, 0⟩ [RichTextNode.Web, RichTextNode.Web]).x = 0 ∧
    (List.foldl (node_step simple_libs test_res 100 30 30)
      ⟨[], Image.new 100 40, 0, 0⟩
      [RichTextNode.Web, RichTextNode.Web]).current_image.pixel 0 0 = ⟨255, 0, 0, 255⟩ ∧
    (List.foldl (node_step simple_libs test_res 100 30 30)
      ⟨[], Image.new 100 40, 0, 0⟩
      [RichTextNode.Web, RichTextNode.Web]).current_image.pixel 50 0 = transparent := by
  refine ⟨by decide, by decide, by decide⟩

/-! Claim C10. -/

theorem push_line_ok {w : Nat} {s : LayoutState} (hs : layout_ok w s) :
    layout_ok w (push_line w s) := by
  refine ⟨⟨rfl, rfl⟩, ?_⟩
  intro img hmem
  rcases List.mem_append.mp hmem with h | h
  · exact hs.2 img h
  · rw [List.mem_singleton.mp h]
    exact hs.1

theorem layout_ok_ite {w : Nat} {s : LayoutState} (hs : layout_ok w s)
    (cond : Prop) [Decidable cond] :
    layout_ok w (if cond then push_line w s else s) := by
  split
  · exact push_line_ok hs
  · exact hs

theorem layout_ok_paste {w : Nat} {s : LayoutState} (hs : layout_ok w s) (ov : Image) :
    layout_ok w
      { s with current_image := paste_image_with_alpha s.current_image ov s.x s.y } :=
  ⟨⟨(paste_dims _ _ _ _).1.trans hs.1.1, (paste_dims _ _ _ _).2.trans hs.1.2⟩, hs.2⟩

theorem char_step_ok {libs : Libs} {res : Resource} {w ex ey : Nat}
    (hDT : ∀ img x y c, (libs.draw_text_char img x y c).width = img.width ∧
      (libs.draw_text_char img x y c).height = img.height)
    {s : LayoutState} (hs : layout_ok w s) (c : CharCode) :
    layout_ok w (char_step libs res w ex ey s c) := by
  unfold char_step
  split
  · exact push_line_ok hs
  split
  · rcases hg : res.emoji_glyph c with _ | g
    · simp only [hg]
      exact hs
    · simp only [hg]
      rcases hd : glyph_to_rgba g with _ | img
      · simp only [hd]
        exact hs
      · simp only [hd]
        exact layout_ok_paste hs _
  · dsimp only
    have hs' := layout_ok_ite hs (s.x + res.text_char_width c > w)
    exact ⟨⟨(hDT _ _ _ _).1.trans hs'.1.1, (hDT _ _ _ _).2.trans hs'.1.2⟩, hs'.2⟩

theorem node_step_ok {libs : Libs} {res : Resource} {w ex ey : Nat}
    (hDT : ∀ img x y c, (libs.draw_text_char img x y c).width = img.width ∧
      (libs.draw_text_char img x y c).height = img.height)
    {s : LayoutState} (hs : layout_ok w s) (node : RichTextNode) :
    layout_ok w (node_step libs res w ex ey s node) := by
  cases node with
  | Text t =>
    dsimp only [node_step]
    exact foldl_preserve (P := layout_ok w) (fun s' c hs' => char_step_ok hDT hs' c) _ s hs
  | Emoji img => exact layout_ok_paste (layout_ok_ite hs _) _
  | Web => exact layout_ok_paste (layout_ok_ite hs _) _
  | Bv => exact layout_ok_paste (layout_ok_ite hs _) _
  | Lottery => exact layout_ok_paste (layout_ok_ite hs _) _
  | Vote => exact layout_ok_paste (layout_ok_ite hs _) _
  | Goods => exact layout_ok_paste (layout_ok_ite hs _) _

/-- C10: every line image `draw_content_image` emits has width exactly
`line_max_width` and height exactly 40: the line buffers are allocated at
that size, `paste_image_with_alpha` clips at the buffer bounds instead of
growing it, and `draw_text_mut` draws in place (the `hDT` hypothesis is its
documented in-place behaviour). -/
theorem C10_line_dims (libs : Libs) (res : Resource)
    (hDT : ∀ img x y c, (libs.draw_text_char img x y c).width = img.width ∧
      (libs.draw_text_char img x y c).height = img.height)
    (nodes : List RichTextNode) (w ex ey : Nat) (img : Image)
    (hmem : img ∈ draw_content_image libs nodes w ex ey res) :
    img.width = w ∧ img.height = 40 := by
  unfold draw_content_image at hmem
  have hfinal : layout_ok w
      (nodes.foldl (node_step libs res w ex ey) ⟨[], Image.new w 40, 0, 0⟩) :=
    foldl_preserve (P := layout_ok w) (fun s node hs => node_step_ok hDT hs node) nodes
      ⟨[], Image.new w 40, 0, 0⟩
      ⟨⟨rfl, rfl⟩, fun img h => absurd h (List.not_mem_nil _)⟩
  rcases List.mem_append.mp hmem with h | h
  · exact hfinal.2 img h
  · rw [List.mem_singleton.mp h]
    exact hfinal.1

theorem C10_line_dims_witness :
    (simple_libs.draw_text_char (Image.new 7 40) 0 0 65).width = 7 ∧
    (simple_libs.draw_text_char (Image.new 7 40) 0 0 65).height = 40 := by
  have hDT : ∀ (img : Image) (x y : Nat) (c : CharCode),
      (simple_libs.draw_text_char img x y c).width = img.width ∧
      (simple_libs.draw_text_char img x y c).height = img.height := by
    intro img x y c
    dsimp only [simple_libs]
    split
    · exact ⟨rfl, rfl⟩
    · exact ⟨rfl, rfl⟩
  exact C10_line_dims simple_libs test_res hDT [RichTextNode.Text [65]] 7 2 2 _
    (List.Mem.head _)

/-! Claims C8 and C9: identity lemmas for characters the layout drops. -/

theorem clean_append (a b : List CharCode) :
    clean_special_chars (a ++ b) = clean_special_chars a ++ clean_special_chars b :=
  List.filter_append ..

theorem clean_cons_strip {c : CharCode} (hc : c = 8203 ∨ c = 65039) (l : List CharCode) :
    clean_special_chars (c :: l) = clean_special_chars l := by
  rcases hc with rfl | rfl <;> simp [clean_special_chars]

theorem clean_cons_keep {c : CharCode} (hc : ¬(c = 8203 ∨ c = 65039)) (l : List CharCode) :
    clean_special_chars (c :: l) = c :: clean_special_chars l := by
  obtain ⟨h1, h2⟩ := not_or.mp hc
  simp [clean_special_chars, h1, h2]

/-- Replacing one node by another that acts identically on every state does
not change the output of `draw_content_image`. -/
theorem draw_eq_of_node_eq (libs : Libs) (res : Resource) (w ex ey : Nat)
    (pre post : List RichTextNode) (n1 n2 : RichTextNode)
    (h : ∀ s, node_step libs res w ex ey s n1 = node_step libs res w ex ey s n2) :
    draw_content_image libs (pre ++ n1 :: post) w ex ey res =
    draw_content_image libs (pre ++ n2 :: post) w ex ey res := by
  unfold draw_content_image
  rw [List.foldl_append, List.foldl_append, List.foldl_cons, List.foldl_cons, h]

/-- Two text nodes with the same cleaned character stream act identically. -/
theorem draw_eq_of_clean_eq (libs : Libs) (res : Resource) (w ex ey : Nat)
    (pre post : List RichTextNode) (t1 t2 : List CharCode)
    (h : clean_special_chars t1 = clean_special_chars t2) :
    draw_content_image libs (pre ++ RichTextNode.Text t1 :: post) w ex ey res =
    draw_content_image libs (pre ++ RichTextNode.Text t2 :: post) w ex ey res :=
  draw_eq_of_node_eq libs res w ex ey pre post _ _
    (fun s => by simp only [node_step, h])

/-- C8 (amended): the layout strips exactly U+200B (zero width space) and
U+FE0F (variation selector 16) from text nodes before layout; a body
containing one of those two characters produces layout output identical,
line for line and pixel for pixel, to the same body with the character
removed.  (The other variation selectors U+FE00–U+FE0E are NOT stripped:
see the counterexample.) -/
theorem C8_strip_identity (libs : Libs) (res : Resource) (w ex ey : Nat)
    (pre post : List RichTextNode) (a b : List CharCode) (c : CharCode)
    (hc : c = 8203 ∨ c = 65039) :
    draw_content_image libs (pre ++ RichTextNode.Text (a ++ c :: b) :: post) w ex ey res =
    draw_content_image libs (pre ++ RichTextNode.Text (a ++ b) :: post) w ex ey res :=
  draw_eq_of_clean_eq libs res w ex ey pre post _ _
    (by rw [clean_append, clean_append, clean_cons_strip hc])

theorem C8_strip_identity_witness :
    draw_content_image simple_libs [RichTextNode.Text ([65] ++ 8203 :: [66])] 9 2 2 test_res =
    draw_content_image simple_libs [RichTextNode.Text ([65] ++ [66])] 9 2 2 test_res :=
  C8_strip_identity simple_libs test_res 9 2 2 [] [] [65] [66] 8203 (Or.inl rfl)

/-- C8, counterexample: `clean_special_chars` does not strip the variation
selector U+FE00 (it removes only U+200B and U+FE0F), and a body containing
U+FE00 does not produce output identical to the body without it: U+FE00
falls in the emoji block ranges, and with a font that exposes a raster
glyph for it, the glyph is pasted and the first line's pixels change. -/
theorem C8_counterexample :
    clean_special_chars [0xFE00] = [0xFE00] ∧
    draw_content_image simple_libs [RichTextNode.Text [0xFE00]] 5 2 2 test_res ≠
    draw_content_image simple_libs [RichTextNode.Text []] 5 2 2 test_res := by
  refine ⟨by decide, fun h => ?_⟩
  have := congrArg (List.map fun im => im.pixel 0 0) h
  exact absurd this (by decide)

/-- C9: an emoji-classified character (that the pre-layout cleaning does not
already remove) for which the emoji font exposes no raster glyph, or whose
glyph image fails `glyph_to_rgba` (non-PNG format or decode failure), is
skipped silently: it consumes no width and the layout output is identical
to the same input without the character; the render is a total function, so
it always completes.  For the two stripped characters U+200B/U+FE0F the
conclusion holds as well, via the cleaning. -/
theorem C9_emoji_skip (libs : Libs) (res : Resource) (w ex ey : Nat)
    (pre post : List RichTextNode) (a b : List CharCode) (c : CharCode)
    (hEm : is_emoji c = true)
    (hglyph : res.emoji_glyph c = none ∨
      ∃ g, res.emoji_glyph c = some g ∧ glyph_to_rgba g = none) :
    draw_content_image libs (pre ++ RichTextNode.Text (a ++ c :: b) :: post) w ex ey res =
    draw_content_image libs (pre ++ RichTextNode.Text (a ++ b) :: post) w ex ey res := by
  by_cases hstrip : c = 8203 ∨ c = 65039
  · exact draw_eq_of_clean_eq libs res w ex ey pre post _ _
      (by rw [clean_append, clean_append, clean_cons_strip hstrip])
  · have hc10 : ¬(c = 10) := fun h => by subst h; exact absurd hEm (by decide)
    have hstep : ∀ s', char_step libs res w ex ey s' c = s' := by
      intro s'
      unfold char_step
      rw [if_neg hc10, if_pos hEm]
      rcases hglyph with hg | ⟨g, hg, hd⟩
      · simp only [hg]
      · simp only [hg, hd]
    refine draw_eq_of_node_eq libs res w ex ey pre post _ _ (fun s => ?_)
    simp only [node_step, clean_append, clean_cons_keep hstrip]
    rw [List.foldl_append, List.foldl_append, List.foldl_cons, hstep]

theorem C9_emoji_skip_witness :
    is_emoji 0x1F601 = true ∧
    draw_content_image simple_libs
      [RichTextNode.Text ([65] ++ 0x1F601 :: [66])] 9 2 2 test_res =
    draw_content_image simple_libs [RichTextNode.Text ([65] ++ [66])] 9 2 2 test_res :=
  ⟨by decide,
   C9_emoji_skip simple_libs test_res 9 2 2 [] [] [65] [66] 0x1F601 (by decide)
     (Or.inl rfl)⟩

/-! Claim C7. -/

theorem round_div_ge {s w h : Nat} (hh : 0 < h) (hlt : h ≤ w) :
    s ≤ round_div (s * w) h := by
  unfold round_div
  rw [Nat.le_div_iff_mul_le (by omega : 0 < 2 * h)]
  have h1 : s * (2 * h) = 2 * (s * h) := by ring
  have h2 : s * h ≤ s * w := Nat.mul_le_mul_left s hlt
  omega

/-- C7: the per-photo tiler produces a `size × size` square; when the source
is wider than tall it scales the height to the target edge, widens by
`round(size·w/h)`, and center-crops the width (the two side crops differ by
at most one pixel); symmetrically when taller than wide; when square it
resizes directly.  `hres` is the documented dimension behaviour of
`imageops::resize`. -/
theorem C7_aspect_crop (libs : Libs)
    (hres : ∀ img a b, (libs.resize img a b).width = a ∧ (libs.resize img a b).height = b)
    (img : Image) (size : Nat) (hsz : 0 < size) (hw : 0 < img.width) (hh : 0 < img.height) :
    (resize_to_square libs size img).width = size ∧
    (resize_to_square libs size img).height = size ∧
    (img.height = img.width → resize_to_square libs size img = libs.resize img size size) ∧
    (img.height < img.width →
      size ≤ round_div (size * img.width) img.height ∧
      resize_to_square libs size img =
        crop_imm (libs.resize img (round_div (size * img.width) img.height) size)
          ((round_div (size * img.width) img.height - size) / 2) 0 size size ∧
      (round_div (size * img.width) img.height - size) / 2 ≤
        (round_div (size * img.width) img.height - size) -
          (round_div (size * img.width) img.height - size) / 2 ∧
      (round_div (size * img.width) img.height - size) -
          (round_div (size * img.width) img.height - size) / 2 ≤
        (round_div (size * img.width) img.height - size) / 2 + 1) ∧
    (img.width < img.height →
      size ≤ round_div (size * img.height) img.width ∧
      resize_to_square libs size img =
        crop_imm (libs.resize img size (round_div (size * img.height) img.width))
          0 ((round_div (size * img.height) img.width - size) / 2) size size ∧
      (round_div (size * img.height) img.width - size) / 2 ≤
        (round_div (size * img.height) img.width - size) -
          (round_div (size * img.height) img.width - size) / 2 ∧
      (round_div (size * img.height) img.width - size) -
          (round_div (size * img.height) img.width - size) / 2 ≤
        (round_div (size * img.height) img.width - size) / 2 + 1) := by
  rcases Nat.lt_trichotomy img.height img.width with hlt | heq | hgt
  · -- wider than tall
    have hne : ¬(img.height = img.width) := Nat.ne_of_lt hlt
    have hdef : resize_to_square libs size img =
        crop_imm (libs.resize img (round_div (size * img.width) img.height) size)
          ((round_div (size * img.width) img.height - size) / 2) 0 size size := by
      unfold resize_to_square
      rw [if_neg hne, if_pos hlt]
    have hge : size ≤ round_div (size * img.width) img.height :=
      round_div_ge hh (Nat.le_of_lt hlt)
    have hrw := hres img (round_div (size * img.width) img.height) size
    refine ⟨?_, ?_, fun h => absurd h hne, fun _ => ⟨hge, hdef, by omega, by omega⟩,
      fun h => absurd h (by omega)⟩
    · rw [hdef]
      simp only [crop_imm, hrw.1, hrw.2]
      omega
    · rw [hdef]
      simp only [crop_imm, hrw.1, hrw.2]
      omega
  · -- square
    have hdef : resize_to_square libs size img = libs.resize img size size := by
      unfold resize_to_square
      rw [if_pos heq]
    have hrw := hres img size size
    exact ⟨hdef ▸ hrw.1, hdef ▸ hrw.2, fun _ => hdef, fun h => absurd h (by omega),
      fun h => absurd h (by omega)⟩
  · -- taller than wide
    have hne : ¬(img.height = img.width) := Nat.ne_of_gt hgt
    have hnlt : ¬(img.height < img.width) := by omega
    have hdef : resize_to_square libs size img =
        crop_imm (libs.resize img size (round_div (size * img.height) img.width))
          0 ((round_div (size * img.height) img.width - size) / 2) size size := by
      unfold resize_to_square
      rw [if_neg hne, if_neg hnlt]
    have hge : size ≤ round_div (size * img.height) img.width :=
      round_div_ge hw (Nat.le_of_lt hgt)
    have hrw := hres img size (round_div (size * img.height) img.width)
    refine ⟨?_, ?_, fun h => absurd h hne, fun h => absurd h (by omega),
      fun _ => ⟨hge, hdef, by omega, by omega⟩⟩
    · rw [hdef]
      simp only [crop_imm, hrw.1, hrw.2]
      omega
    · rw [hdef]
      simp only [crop_imm, hrw.1, hrw.2]
      omega

theorem C7_aspect_crop_witness :
    (resize_to_square simple_libs 3 c7_photo).width = 3 ∧
    (resize_to_square simple_libs 3 c7_photo).height = 3 ∧
    3 ≤ round_div (3 * c7_photo.width) c7_photo.height := by
  have h := C7_aspect_crop simple_libs (fun img a b => ⟨rfl, rfl⟩) c7_photo 3
    (by decide) (by decide) (by decide)
  exact ⟨h.1, h.2.1, (h.2.2.2.1 (by decide)).1⟩

end BiliSpider
